import Mathlib

/-!
# Verification of the SpringChallenge2021 Rust bot (`src/main.rs`)

Shallow embedding of the decision core of the bot: the game-state data
model, the shadow computation `is_shadowed`, the income computation
`calculate_sun_points`, the transition function `apply_action`, the state
evaluation `evaluate_state`, and the MCTS driver `run_mcts` /
`choose_action`.

Modelling conventions:
* Rust `i8` values (cell indices, with `-1` as off-board sentinel) are
  `Int`; no arithmetic is performed on them in the source, only
  comparisons, so no width reduction is needed.
* Rust `u8` sun totals are `Nat` with an explicit `% 256` at the one
  place the source performs `u8` addition (`calculate_sun_points`),
  matching release-mode wrapping semantics.
* Rust `f32` scores are modelled as `ℚ`.  The source's float constants
  (`0.5`, `0.25`, `2.0`, division by `3.0` and `5.0`, `0.001`) are carried
  over as exact rationals; `f32::MAX` is the exact rational value of that
  float.  The transcendental `sqrt(ln … / …)` inside the UCB1 formula is
  not exactly representable; it is modelled by a fixed rational
  stand-in, which is sound for every theorem below because in this
  program the UCB1 formula is never evaluated on a node with a nonzero
  visit count (no code path ever increments a visit count), so only the
  `f32::MAX` branch is ever reachable, and moreover the search loop
  discards all per-iteration data.
* Partial operations (slice indexing, `Option::unwrap`) are modelled in
  `Option`, with `none` standing for a Rust panic.
-/

namespace SC2021

/-- `struct Cell` from `src/main.rs`. -/
structure Cell where
  index : Int
  richness : Nat
  neighbors : List Int
deriving DecidableEq

/-- `struct Tree` from `src/main.rs`. -/
structure Tree where
  cell_index : Int
  size : Nat
  is_mine : Bool
  is_dormant : Bool
  is_shadowed : Bool
deriving DecidableEq

/-- `enum ActionType` from `src/main.rs`. -/
inductive ActionType where
  | Wait
  | Seed
  | Grow
  | Complete
deriving DecidableEq

/-- `struct Action` from `src/main.rs`. -/
structure Action where
  action_type : ActionType
  source_cell_index : Option Int
  target_cell_index : Option Int
deriving DecidableEq

/-- `struct GameState` from `src/main.rs`. -/
structure GameState where
  day : Nat
  nutrients : Nat
  cells : List Cell
  possible_actions : List Action
  trees : List Tree
  my_sun : Nat
  my_score : Nat
  opp_sun : Nat
  opp_score : Nat
  opponent_is_waiting : Bool
deriving DecidableEq

/-- The sun direction `((day % 6) + 3) % 6` computed in `check_neighbor`. -/
def sunDirection (day : Nat) : Nat := ((day % 6) + 3) % 6

/-- The default cell produced by the `unwrap_or` in `check_neighbor`:
index `-1`, richness `0`, all six neighbors the off-board sentinel. -/
def defaultCell : Cell := ⟨-1, 0, [-1, -1, -1, -1, -1, -1]⟩

/-- The default tree produced by the `unwrap_or` in `check_neighbor`:
`cell_index = -1`, size `0`, all flags false. -/
def defaultTree : Tree := ⟨-1, 0, false, false, false⟩

/-- The cell lookup `game_state.cells.iter().find(…).cloned().unwrap_or(…)`
in `check_neighbor`. -/
def findCell (gs : GameState) (ci : Int) : Cell :=
  (gs.cells.find? (fun cell => cell.index == ci)).getD defaultCell

/-- The tree lookup `game_state.trees.iter().find(|t| t.cell_index == ci)`. -/
def findTree (gs : GameState) (ci : Int) : Option Tree :=
  gs.trees.find? (fun t => t.cell_index == ci)

/-- The inner recursive function `check_neighbor` of `is_shadowed`.
`none` models the panic of the slice index `cell.neighbors[sun_direction]`
when a cell carries fewer than six neighbor entries.  The source's
`if count > 1 { check_neighbor(…, count - 1, …) } else { false }` is
rendered as a structural match on `count`: for `count = n + 1` the guard
`count > 1` is `0 < n`, and then `count - 1 = n`; `count = 0` fails the
guard. -/
def check_neighbor (gs : GameState) (ci : Int) (count : Nat)
    (tree_size : Nat) : Option Bool :=
  match (findCell gs ci).neighbors.get? (sunDirection gs.day) with
  | none => none
  | some nIdx =>
    if nIdx = -1 then
      some false
    else
      let nt := (findTree gs nIdx).getD defaultTree
      if nt.cell_index ≠ -1 ∧ tree_size ≤ nt.size then
        some true
      else
        match count with
        | 0 => some false
        | n + 1 =>
          if 0 < n then check_neighbor gs nIdx n tree_size else some false

/-- `fn is_shadowed` from `src/main.rs`: find the tree on `cell_index`; if
none, report `false`; otherwise run `check_neighbor` with both `count` and
`tree_size` equal to the tree's size. -/
def is_shadowed (gs : GameState) (ci : Int) : Option Bool :=
  match gs.trees.find? (fun t => t.cell_index == ci) with
  | some t => check_neighbor gs ci t.size t.size
  | none => some false

/-- Every cell of the state carries exactly six neighbor entries, as the
board built by `main` always does (the spec's well-formed-snapshot
assumption). -/
def wellFormedCells (gs : GameState) : Prop :=
  ∀ c ∈ gs.cells, c.neighbors.length = 6

instance (gs : GameState) : Decidable (wellFormedCells gs) :=
  List.decidableBAll _ gs.cells

/-- Reference shadow walk, written from the spec's words (§4.1): starting
at `ci`, walk up to `hops` hops along the neighbor link in the sun
direction; on the off-board sentinel report not-shadowed; if a tree of
size ≥ `threshold` occupies the hop's cell report shadowed; when hops are
exhausted report not-shadowed.  Used only to compare against
`check_neighbor`. -/
def spec_walk (gs : GameState) (ci : Int) (hops : Nat)
    (threshold : Nat) : Option Bool :=
  match hops with
  | 0 => some false
  | h + 1 =>
    match (findCell gs ci).neighbors.get? (sunDirection gs.day) with
    | none => none
    | some nIdx =>
      if nIdx = -1 then
        some false
      else
        match findTree gs nIdx with
        | some nt =>
          if threshold ≤ nt.size then some true
          else spec_walk gs nIdx h threshold
        | none => spec_walk gs nIdx h threshold

/-- The per-tree `match tree.size` arms of `calculate_sun_points`: sizes
1, 2, 3 add their size to the owner's sun total; any other size adds
nothing (`_ => {}`). -/
def sunContribution (size : Nat) : Nat :=
  match size with
  | 1 => 1
  | 2 => 2
  | 3 => 3
  | _ => 0

/-- One step of the `for tree in game_state.trees` loop of
`calculate_sun_points`; the accumulator is the pair
`(my_sun, opp_sun)`.  `u8` addition wraps at 256 (release semantics). -/
def sun_step (acc : Nat × Nat) (t : Tree) : Nat × Nat :=
  if t.is_shadowed then acc
  else if t.is_mine then ((acc.1 + sunContribution t.size) % 256, acc.2)
  else (acc.1, (acc.2 + sunContribution t.size) % 256)

/-- `fn calculate_sun_points` from `src/main.rs`: fold `sun_step` over the
trees starting from the state's current sun totals. -/
def calculate_sun_points (gs : GameState) : Nat × Nat :=
  gs.trees.foldl sun_step (gs.my_sun, gs.opp_sun)

/-- Total income the claim predicts for the owner: the sum of the sizes
of the unshadowed trees marked `is_mine`. -/
def my_income (ts : List Tree) : Nat :=
  (ts.map (fun t => if t.is_mine && !t.is_shadowed then t.size else 0)).sum

/-- Total income the claim predicts for the opponent: the sum of the
sizes of the unshadowed trees not marked `is_mine`. -/
def opp_income (ts : List Tree) : Nat :=
  (ts.map (fun t => if !t.is_mine && !t.is_shadowed then t.size else 0)).sum

/-- `fn apply_action` from `src/main.rs`.  The Rust function takes
`&mut GameState`; we model the mutable reference explicitly: the result's
first component is the value the referenced input state holds after the
call, the second is the returned new state.  The function clones the
input and works only on the clone, so the first component is the input
unchanged.  Only the `Wait` arm does anything; the `Seed`, `Grow` and
`Complete` arms are commented out in the source (`_ => {}`). -/
def apply_action (gs : GameState) (a : Action) : GameState × GameState :=
  let new_game_state := gs
  let result :=
    match a.action_type with
    | ActionType.Wait =>
      let p := calculate_sun_points new_game_state
      { new_game_state with my_sun := p.1, opp_sun := p.2 }
    | _ => new_game_state
  (gs, result)

/-- `fn evaluate_state` from `src/main.rs`, with `f32` modelled as `ℚ`
(the source's `0.001` is carried over as the exact rational `1/1000`). -/
def evaluate_state (gs : GameState) : ℚ :=
  let my_score : ℚ := (gs.my_score : ℚ) + (gs.my_sun : ℚ) / 3
  let opponent_score : ℚ := (gs.opp_score : ℚ) + (gs.opp_sun : ℚ) / 3
  if opponent_score < my_score then
    let diff := my_score - opponent_score
    if 5 < diff then 1 + (diff - 5) * (1 / 1000)
    else 1 / 2 + (1 / 2 * diff) / 5
  else if my_score < opponent_score then
    let diff := opponent_score - my_score
    if 5 < diff then -1 - (diff - 5) * (1 / 1000)
    else -1 / 2 - (1 / 2 * diff) / 5
  else
    let my_tree_count := (gs.trees.filter (fun t => t.is_mine)).length
    let opponent_tree_count := (gs.trees.filter (fun t => !t.is_mine)).length
    if opponent_tree_count < my_tree_count then 1 / 4 + my_score * (1 / 1000)
    else if my_tree_count < opponent_tree_count then
      -1 / 4 + my_score * (1 / 1000)
    else my_score * (1 / 1000)

/-- `struct Node` from `src/main.rs`: search-tree node with an optional
boxed parent, children, visit count, score and the producing action. -/
inductive Node where
  | mk : Option Node → List Node → Nat → ℚ → GameState → Option Action → Node

/-- The `parent` field of `Node`. -/
def Node.parent : Node → Option Node
  | .mk p _ _ _ _ _ => p

/-- The `children` field of `Node`. -/
def Node.children : Node → List Node
  | .mk _ c _ _ _ _ => c

/-- The `visit_count` field of `Node`. -/
def Node.visit_count : Node → Nat
  | .mk _ _ v _ _ _ => v

/-- The `score` field of `Node`. -/
def Node.score : Node → ℚ
  | .mk _ _ _ s _ _ => s

/-- The `game_state` field of `Node`. -/
def Node.game_state : Node → GameState
  | .mk _ _ _ _ g _ => g

/-- The `action` field of `Node`. -/
def Node.action : Node → Option Action
  | .mk _ _ _ _ _ a => a

/-- The exact rational value of `f32::MAX`, returned by `get_ucb1_score`
for an unvisited node. -/
def f32MAX : ℚ := (2 ^ 24 - 1) * 2 ^ 104

/-- Model of the `f32` expression `(ln p / v).sqrt()` in
`get_ucb1_score`.  The transcendental value is not exactly representable;
any fixed rational is a sound stand-in here because no code path in this
program ever increments a visit count, so `get_ucb1_score` only ever
reaches its `f32::MAX` branch on nodes the search actually visits, and
the search loop discards every node it builds. -/
def sqrtLnDiv (p v : ℚ) : ℚ := (p + v) * 0

/-- `fn get_ucb1_score` from `src/main.rs`: unvisited nodes get
`f32::MAX`; otherwise `score + 2 * sqrt(ln(parent.visits) / visits)`,
where a missing parent defaults to a fresh node with zero visits. -/
def get_ucb1_score (node : Node) : ℚ :=
  if node.visit_count = 0 then f32MAX
  else
    let parent_visit_count : ℚ :=
      ((node.parent.getD (Node.mk none [] 0 0 (GameState.mk 0 0 [] [] [] 0 0 0 0 false) none)).visit_count : ℚ)
    node.score + 2 * sqrtLnDiv parent_visit_count (node.visit_count : ℚ)

/-- The scan of `fn get_best_node`: starting from the first child, replace
the candidate whenever a later child has a strictly larger UCB1 score. -/
def best_scan (best : Node) (child : Node) : Node :=
  if get_ucb1_score best < get_ucb1_score child then child else best

/-- `fn get_best_node` from `src/main.rs`: a childless node is returned
unchanged; otherwise scan all children for the best UCB1 score, starting
from the first child. -/
def get_best_node (node : Node) : Node :=
  match node.children with
  | [] => node
  | c :: _ => node.children.foldl best_scan c

/-- The `best_scan` fold only ever returns its seed or a list element. -/
theorem foldl_best_scan_mem (l : List Node) (b : Node) :
    l.foldl best_scan b = b ∨ l.foldl best_scan b ∈ l := by
  induction l generalizing b with
  | nil => exact Or.inl rfl
  | cons x xs ih =>
    simp only [List.foldl_cons]
    rcases ih (best_scan b x) with h | h
    · rw [h]
      unfold best_scan
      split
      · exact Or.inr (List.mem_cons_self _ _)
      · exact Or.inl rfl
    · exact Or.inr (List.mem_cons_of_mem _ h)

/-- On a node with children, `get_best_node` returns one of the children. -/
theorem get_best_node_mem (node : Node) (h : node.children ≠ []) :
    get_best_node node ∈ node.children := by
  unfold get_best_node
  obtain ⟨c, rest, hc⟩ : ∃ c rest, node.children = c :: rest := by
    cases hcc : node.children with
    | nil => exact absurd hcc h
    | cons a b => exact ⟨a, b, rfl⟩
  rw [hc]
  show (c :: rest).foldl best_scan c ∈ c :: rest
  rcases foldl_best_scan_mem (c :: rest) c with h1 | h1
  · rw [h1]; exact List.mem_cons_self _ _
  · exact h1

/-- The children list of a node is structurally smaller than the node. -/
theorem sizeOf_children_lt (n : Node) : sizeOf n.children < sizeOf n := by
  cases n with
  | mk p c v s g a =>
    simp only [Node.children, Node.mk.sizeOf_spec]
    omega

/-- The `while node.children.len() > 0 { node = get_best_node(node) }`
selection loop inside `run_mcts`. -/
def descend (node : Node) : Node :=
  if node.children.isEmpty then node
  else descend (get_best_node node)
termination_by sizeOf node
decreasing_by
  rename_i h
  have hne : node.children ≠ [] := by
    intro hh
    simp [hh] at h
  have h1 := List.sizeOf_lt_of_mem (get_best_node_mem node hne)
  have h2 := sizeOf_children_lt node
  omega

/-- The body of the `for action in possible_actions` loop inside
`run_mcts`: the pair carries the mutable locals `(new_node, node)`.  Per
action the source sets `new_node.action`, reassigns
`new_node.game_state` to `apply_action(&mut new_node.game_state, action)`
(the `&mut` write-back is immediately overwritten by the assignment of
the returned state), recomputes `new_node.score`, and pushes a clone of
`new_node` onto `node.children`. -/
def expansion_step (p : Node × Node) (action : Action) : Node × Node :=
  let new_node := p.1
  let node := p.2
  let applied := apply_action new_node.game_state action
  let new_node' := Node.mk new_node.parent new_node.children
    new_node.visit_count (evaluate_state applied.2) applied.2 (some action)
  let node' := Node.mk node.parent (node.children ++ [new_node'])
    node.visit_count node.score node.game_state node.action
  (new_node', node')

/-- One iteration of the `for _ in 0..n` loop of `run_mcts`: clone the
root, descend while the current node has children, build `new_node` with
the reached node as parent, then run the expansion loop over the cloned
`possible_actions` list.  The iteration's result (the local `node`) is
what the source drops at the end of the loop body. -/
def mcts_iteration (root : Node) : Node :=
  let node := descend root
  let new_node := Node.mk (some node) [] 0 0 node.game_state none
  let possible_actions := new_node.game_state.possible_actions
  (possible_actions.foldl expansion_step (new_node, node)).2

/-- The root node built at the top of `run_mcts`. -/
def rootNode (gs : GameState) : Node :=
  Node.mk none [] 0 0 gs none

/-- The `for _ in 0..n` loop of `run_mcts`.  The `MCTS` struct is bound
immutably (`let mcts = …`) and every iteration works on
`mcts.root_node.clone()`, so each iteration's work is computed and then
dropped; the retained root is threaded through unchanged. -/
def mcts_loop (root : Node) : Nat → Node
  | 0 => root
  | n + 1 => mcts_loop ((fun _ => root) (mcts_iteration root)) n

/-- The final selection of `run_mcts`:
`root.children.iter().max_by(|x, y| x.score.partial_cmp(&y.score))` —
Rust's `max_by` returns the last element among equal maxima, i.e. a left
fold that replaces the candidate whenever the new element's score is at
least the candidate's.  `none` models the panic of the trailing
`.unwrap()` on an empty children list. -/
def max_by_scan (best x : Node) : Node :=
  if best.score ≤ x.score then x else best

/-- See the doc comment above `max_by_scan`: the selection itself. -/
def select_best_child (children : List Node) : Option Node :=
  match children with
  | [] => none
  | c :: rest => some (rest.foldl max_by_scan c)

/-- `fn run_mcts` from `src/main.rs`: build the root, run `n` iterations,
then return `best_node.action.clone().unwrap()` for the best root child
(`none` models either `unwrap` panicking). -/
def run_mcts (gs : GameState) (n : Nat) : Option Action :=
  let root := rootNode gs
  let final_root := mcts_loop root n
  (select_best_child final_root.children).bind (fun b => b.action)

/-- `fn choose_action` from `src/main.rs`: `run_mcts(game_state, 1000)`. -/
def choose_action (gs : GameState) : Option Action :=
  run_mcts gs 1000

/-! ## Concrete states used by witnesses and counterexamples -/

/-- The `WAIT` action. -/
def waitAct : Action := ⟨ActionType.Wait, none, none⟩

/-- A two-cell board: cell 0's neighbor in direction 3 is cell 1, every
other link is the off-board sentinel. -/
def twoCells : List Cell :=
  [⟨0, 1, [-1, -1, -1, 1, -1, -1]⟩, ⟨1, 1, [-1, -1, -1, -1, -1, -1]⟩]

/-- Day-0 state with a friendly seed on cell 0 and an opposing seed on
cell 1 (the sun-direction neighbor of cell 0). -/
def seedState : GameState :=
  ⟨0, 20, twoCells, [waitAct],
    [⟨0, 0, true, false, false⟩, ⟨1, 0, false, false, false⟩],
    2, 0, 2, 0, false⟩

/-- Day-0 state with a friendly size-1 tree on cell 0 and an opposing
size-1 tree on cell 1. -/
def size1State : GameState :=
  ⟨0, 20, twoCells, [waitAct],
    [⟨0, 1, true, false, false⟩, ⟨1, 1, false, false, false⟩],
    2, 0, 2, 0, false⟩

/-- `size1State` with the tree on cell 0 grown to size 2 (same day, same
neighbor occupancy). -/
def size2State : GameState :=
  ⟨0, 20, twoCells, [waitAct],
    [⟨0, 2, true, false, false⟩, ⟨1, 1, false, false, false⟩],
    2, 0, 2, 0, false⟩

/-- `size1State` with the opposing tree on cell 1 grown to size 3 (the
queried tree on cell 0 unchanged). -/
def bigBlockerState : GameState :=
  ⟨0, 20, twoCells, [waitAct],
    [⟨0, 1, true, false, false⟩, ⟨1, 3, false, false, true⟩],
    2, 0, 2, 0, false⟩

/-- Day-0 state with an unshadowed friendly size-2 tree on cell 0 and a
shadowed opposing size-3 tree on cell 1, used for the income claims. -/
def incomeState : GameState :=
  ⟨0, 20, twoCells, [waitAct],
    [⟨0, 2, true, false, false⟩, ⟨1, 3, false, false, true⟩],
    10, 0, 5, 0, false⟩

/-- A state with an empty board, carried by the concrete search nodes. -/
def emptyState : GameState := ⟨0, 0, [], [], [], 0, 0, 0, 0, false⟩

/-- A root child with 5 visits and score 1. -/
def manyVisitsNode : Node := Node.mk none [] 5 1 emptyState (some waitAct)

/-- A root child with 1 visit and score 2. -/
def fewVisitsNode : Node :=
  Node.mk none [] 1 2 emptyState
    (some ⟨ActionType.Complete, none, some 0⟩)

/-! ## Facts about the MCTS driver -/

/-- The `for _ in 0..n` loop of `run_mcts` never changes the retained
root: all per-iteration work is done on clones and dropped. -/
theorem mcts_loop_eq (root : Node) (n : Nat) : mcts_loop root n = root := by
  induction n with
  | zero => rfl
  | succ n ih => exact ih

/-- `run_mcts` always panics: the root's children list is never
populated, so the final `max_by(…).unwrap()` unwraps `None`. -/
theorem run_mcts_eq_none (gs : GameState) (n : Nat) : run_mcts gs n = none := by
  show (select_best_child (mcts_loop (rootNode gs) n).children).bind
    (fun b => b.action) = none
  rw [mcts_loop_eq]
  rfl

/-! ## Claim theorems -/

/-- C1.  The claim states that for every state with a non-empty
legal-action list, `choose_action` returns without faulting an action
from that list.  In fact `choose_action` faults on every input: the
search loop pushes children only onto per-iteration clones, the retained
root stays childless, and the final `.max_by(…).unwrap()` panics
(modelled as `none`). -/
theorem choose_action_always_faults (gs : GameState) :
    choose_action gs = none :=
  run_mcts_eq_none gs 1000

/-- C2.  The claim states that a `Complete` action removes the target
tree, raises the actor's score from the nutrient pool and the cell's
richness, decrements the nutrient pool, and costs 4 sun.  In fact the
`Complete` arm of `apply_action` is commented out in the source
(`_ => {}`), so the returned state is the input state unchanged: no tree
is removed, no score is gained, the nutrient pool and sun totals are
untouched. -/
theorem apply_action_complete_is_noop (gs : GameState)
    (src tgt : Option Int) :
    (apply_action gs ⟨ActionType.Complete, src, tgt⟩).2 = gs := rfl

/-- C6.  `apply_action` never mutates its input: the first component of
the model (the value held by the `&mut` reference after the call) equals
the input, and evaluating the function for a second action on the
input after a first call yields exactly the result of an independent
evaluation. -/
theorem apply_action_pure (gs : GameState) (a b : Action) :
    (apply_action gs a).1 = gs ∧
    apply_action (apply_action gs b).1 a = apply_action gs a :=
  ⟨rfl, rfl⟩

/-- C10.  `choose_action` is deterministic: it is a pure function of the
game state (the source contains no randomness source anywhere on the
`choose_action`/`run_mcts` path), so equal states yield equal results. -/
theorem choose_action_deterministic (gs1 gs2 : GameState)
    (h : gs1 = gs2) : choose_action gs1 = choose_action gs2 := by
  rw [h]

/-- Witness for C10 at a concrete state. -/
theorem choose_action_deterministic_witness :
    choose_action incomeState = choose_action incomeState :=
  choose_action_deterministic incomeState incomeState rfl

/-! ## Facts about the shadow model -/

/-- The sun direction index is always a valid hex direction. -/
theorem sunDirection_lt (day : Nat) : sunDirection day < 6 := by
  unfold sunDirection
  omega

/-- Under the well-formedness assumption the cell returned by `findCell`
always carries six neighbor entries (the `unwrap_or` default does too). -/
theorem findCell_neighbors_length (gs : GameState)
    (hwf : wellFormedCells gs) (ci : Int) :
    (findCell gs ci).neighbors.length = 6 := by
  unfold findCell
  cases h : gs.cells.find? (fun cell => cell.index == ci) with
  | none => rfl
  | some c => exact hwf c (List.mem_of_find?_eq_some h)

/-- On a well-formed state `check_neighbor` never hits the out-of-bounds
panic. -/
theorem check_neighbor_isSome (gs : GameState) (hwf : wellFormedCells gs)
    (count : Nat) :
    ∀ (ci : Int) (ts : Nat), (check_neighbor gs ci count ts).isSome = true := by
  induction count using Nat.strong_induction_on with
  | _ count ih =>
    intro ci ts
    unfold check_neighbor
    cases hg : (findCell gs ci).neighbors.get? (sunDirection gs.day) with
    | none =>
      exfalso
      rw [List.get?_eq_none] at hg
      have h1 := findCell_neighbors_length gs hwf ci
      have h2 := sunDirection_lt gs.day
      omega
    | some nIdx =>
      by_cases h1 : nIdx = -1
      · simp [h1]
      · simp only [if_neg h1]
        by_cases h2 : ((findTree gs nIdx).getD defaultTree).cell_index ≠ -1 ∧
            ts ≤ ((findTree gs nIdx).getD defaultTree).size
        · simp [h2]
        · simp only [if_neg h2]
          rcases count with _ | _ | n
          · rfl
          · rfl
          · simpa using ih (n + 1) (by omega) nIdx ts

/-- `check_neighbor` with `count = 0` behaves exactly like `count = 1`:
a size-0 seed still gets one hop checked. -/
theorem check_neighbor_zero_eq_one (gs : GameState) (ci : Int) (ts : Nat) :
    check_neighbor gs ci 0 ts = check_neighbor gs ci 1 ts := by
  unfold check_neighbor
  cases (findCell gs ci).neighbors.get? (sunDirection gs.day) with
  | none => rfl
  | some nIdx => rfl

/-- For a positive hop count, `check_neighbor` agrees with the spec's
reference walk `spec_walk`. -/
theorem check_neighbor_succ_eq_spec_walk (gs : GameState) (ts : Nat) :
    ∀ (n : Nat) (ci : Int),
      check_neighbor gs ci (n + 1) ts = spec_walk gs ci (n + 1) ts := by
  intro n
  induction n with
  | zero =>
    intro ci
    unfold check_neighbor spec_walk
    cases hg : (findCell gs ci).neighbors.get? (sunDirection gs.day) with
    | none => rfl
    | some nIdx =>
      by_cases h1 : nIdx = -1
      · simp [h1]
      · simp only [if_neg h1]
        cases hf : findTree gs nIdx with
        | none => simp [defaultTree, spec_walk]
        | some t =>
          have ht : t.cell_index = nIdx := by
            have := List.find?_some hf
            simpa using this
          by_cases h2 : ts ≤ t.size
          · simp [ht, h1, h2]
          · simp [ht, h1, h2, spec_walk]
  | succ n ih =>
    intro ci
    unfold check_neighbor spec_walk
    cases hg : (findCell gs ci).neighbors.get? (sunDirection gs.day) with
    | none => rfl
    | some nIdx =>
      by_cases h1 : nIdx = -1
      · simp [h1]
      · simp only [if_neg h1]
        cases hf : findTree gs nIdx with
        | none => simpa [defaultTree] using ih nIdx
        | some t =>
          have ht : t.cell_index = nIdx := by
            have := List.find?_some hf
            simpa using this
          by_cases h2 : ts ≤ t.size
          · simp [ht, h1, h2]
          · simpa [ht, h1, h2] using ih nIdx

/-- Counterexample to C5 as stated: the claim says a size-0 seed gets no
shadow check and always reports not-shadowed; in `seedState` the queried
cell 0 holds a size-0 seed and `is_shadowed` reports shadowed (the seed
on the sun-direction neighbor blocks it, since `size ≥ 0` holds for any
tree). -/
theorem seed_shadow_counterexample : is_shadowed seedState 0 = some true :=
  rfl

/-- C5 (amended).  `is_shadowed` follows the spec's walk with threshold
equal to the queried tree's size, but checks `max size 1` hops rather
than `size` hops: a tree of size 1–3 checks exactly its size in hops (as
the claim states), while a size-0 seed is checked for one hop exactly
like a size-1 tree would be, with threshold 0, so any tree on the
sun-direction neighbor shadows it. -/
theorem is_shadowed_eq_spec_walk (gs : GameState) (ci : Int) (t : Tree)
    (hf : gs.trees.find? (fun tr => tr.cell_index == ci) = some t) :
    is_shadowed gs ci = spec_walk gs ci (max t.size 1) t.size := by
  unfold is_shadowed
  rw [hf]
  show check_neighbor gs ci t.size t.size =
    spec_walk gs ci (max t.size 1) t.size
  cases t.size with
  | zero =>
    rw [check_neighbor_zero_eq_one]
    exact check_neighbor_succ_eq_spec_walk gs 0 0 ci
  | succ m =>
    have hm : max (m + 1) 1 = m + 1 := by omega
    rw [hm]
    exact check_neighbor_succ_eq_spec_walk gs (m + 1) m ci

/-- Witness for C5 (amended) at a concrete state: the size-1 tree on
cell 0 of `size1State`. -/
theorem is_shadowed_eq_spec_walk_witness :
    is_shadowed size1State 0 =
      spec_walk size1State 0 (max (Tree.mk 0 1 true false false).size 1)
        (Tree.mk 0 1 true false false).size :=
  is_shadowed_eq_spec_walk size1State 0 (Tree.mk 0 1 true false false) rfl

/-- C9.  `is_shadowed` is total at its public interface: on any state
whose cells all carry six neighbor entries it returns a boolean for any
queried index (modelled: the `Option` result is `some`), and it returns
`false` whenever no tree occupies the queried cell. -/
theorem is_shadowed_total (gs : GameState) (ci : Int)
    (hwf : wellFormedCells gs) :
    (is_shadowed gs ci).isSome = true ∧
    (gs.trees.find? (fun t => t.cell_index == ci) = none →
      is_shadowed gs ci = some false) := by
  constructor
  · unfold is_shadowed
    cases h : gs.trees.find? (fun t => t.cell_index == ci) with
    | none => rfl
    | some t => exact check_neighbor_isSome gs hwf t.size ci t.size
  · intro h
    unfold is_shadowed
    rw [h]

/-- Witness for C9 at a concrete well-formed state and an off-board
query index. -/
theorem is_shadowed_total_witness :
    (is_shadowed incomeState 7).isSome = true ∧
    (incomeState.trees.find? (fun t => t.cell_index == 7) = none →
      is_shadowed incomeState 7 = some false) :=
  is_shadowed_total incomeState 7 (by decide)

/-- Counterexample to C4 as stated: after 1 completed iteration from a
concrete root, the root's visit count is 0, not 1 — no outcome is ever
propagated to the root. -/
theorem backprop_counterexample :
    (mcts_loop (rootNode incomeState) 1).visit_count ≠ 1 := by
  rw [mcts_loop_eq]
  decide

/-- C4 (amended).  The claim states that each iteration propagates the
outcome up the parent chain, incrementing each ancestor's visit count,
so that after `n` iterations the root's visit count equals `n`.  In fact
no backpropagation is performed at all: every iteration works on clones
that are dropped, the retained root is unchanged by the loop, and its
visit count stays 0 regardless of the iteration count. -/
theorem no_backpropagation (gs : GameState) (n : Nat) :
    mcts_loop (rootNode gs) n = rootNode gs ∧
    (mcts_loop (rootNode gs) n).visit_count = 0 := by
  refine ⟨mcts_loop_eq _ _, ?_⟩
  rw [mcts_loop_eq]
  rfl

/-! ## Income settlement (Wait) -/

/-- For the sizes that actually occur (0–3) the `match` in
`calculate_sun_points` credits exactly the tree's size. -/
theorem sunContribution_eq (s : Nat) (h : s ≤ 3) : sunContribution s = s := by
  rcases s with _ | _ | _ | _ | s
  · rfl
  · rfl
  · rfl
  · rfl
  · omega

/-- The income fold of `calculate_sun_points`, characterised: when every
tree size is at most 3 and neither total overflows a `u8`, the fold adds
each side's predicted income to its starting total. -/
theorem foldl_sun_step (ts : List Tree) :
    ∀ (my opp : Nat), (∀ t ∈ ts, t.size ≤ 3) →
    my + my_income ts < 256 → opp + opp_income ts < 256 →
    ts.foldl sun_step (my, opp) = (my + my_income ts, opp + opp_income ts) := by
  induction ts with
  | nil =>
    intro my opp _ _ _
    simp [my_income, opp_income]
  | cons t rest ih =>
    intro my opp hsz hmy hopp
    have hts : t.size ≤ 3 := hsz t (List.mem_cons_self _ _)
    have hc := sunContribution_eq t.size hts
    have hszr : ∀ x ∈ rest, x.size ≤ 3 :=
      fun x hx => hsz x (List.mem_cons_of_mem _ hx)
    rw [List.foldl_cons]
    cases hsh : t.is_shadowed with
    | true =>
      have hmyi : my_income (t :: rest) = my_income rest := by
        simp [my_income, hsh]
      have hoppi : opp_income (t :: rest) = opp_income rest := by
        simp [opp_income, hsh]
      have hstep : sun_step (my, opp) t = (my, opp) := by
        simp [sun_step, hsh]
      rw [hmyi] at hmy ⊢
      rw [hoppi] at hopp ⊢
      rw [hstep]
      exact ih my opp hszr hmy hopp
    | false =>
      cases hm : t.is_mine with
      | true =>
        have hmyi : my_income (t :: rest) = t.size + my_income rest := by
          simp [my_income, hsh, hm]
        have hoppi : opp_income (t :: rest) = opp_income rest := by
          simp [opp_income, hsh, hm]
        rw [hmyi] at hmy ⊢
        rw [hoppi] at hopp ⊢
        have hbnd : my + t.size < 256 := by omega
        have hstep : sun_step (my, opp) t = (my + t.size, opp) := by
          simp [sun_step, hsh, hm, hc, Nat.mod_eq_of_lt hbnd]
        rw [hstep, ih (my + t.size) opp hszr (by omega) hopp]
        rw [Nat.add_assoc]
      | false =>
        have hmyi : my_income (t :: rest) = my_income rest := by
          simp [my_income, hsh, hm]
        have hoppi : opp_income (t :: rest) = t.size + opp_income rest := by
          simp [opp_income, hsh, hm]
        rw [hmyi] at hmy ⊢
        rw [hoppi] at hopp ⊢
        have hbnd : opp + t.size < 256 := by omega
        have hstep : sun_step (my, opp) t = (my, opp + t.size) := by
          simp [sun_step, hsh, hm, hc, Nat.mod_eq_of_lt hbnd]
        rw [hstep, ih my (opp + t.size) hszr hmy (by omega)]
        rw [Nat.add_assoc]

/-- C7.  Applying a `Wait` action leaves the forest unchanged and
settles income: every tree whose shadowed flag is false contributes
exactly its size in sun points to its owner's total (size 0 contributes
0), and shadowed trees contribute nothing.  The hypotheses restrict to
the domain the claim enumerates (sizes 0–3) and rule out `u8` wraparound
of the totals. -/
theorem wait_settles_income (gs : GameState) (a : Action)
    (ha : a.action_type = ActionType.Wait)
    (hsz : ∀ t ∈ gs.trees, t.size ≤ 3)
    (hmy : gs.my_sun + my_income gs.trees < 256)
    (hopp : gs.opp_sun + opp_income gs.trees < 256) :
    (apply_action gs a).2.trees = gs.trees ∧
    (apply_action gs a).2.my_sun = gs.my_sun + my_income gs.trees ∧
    (apply_action gs a).2.opp_sun = gs.opp_sun + opp_income gs.trees := by
  unfold apply_action
  rw [ha]
  unfold calculate_sun_points
  dsimp only
  rw [foldl_sun_step gs.trees gs.my_sun gs.opp_sun hsz hmy hopp]
  exact ⟨rfl, rfl, rfl⟩

/-- Witness for C7 at a concrete state: `incomeState` has an unshadowed
size-2 tree of mine (contributing 2) and a shadowed size-3 opposing tree
(contributing 0). -/
theorem wait_settles_income_witness :
    (apply_action incomeState waitAct).2.trees = incomeState.trees ∧
    (apply_action incomeState waitAct).2.my_sun =
      incomeState.my_sun + my_income incomeState.trees ∧
    (apply_action incomeState waitAct).2.opp_sun =
      incomeState.opp_sun + opp_income incomeState.trees :=
  wait_settles_income incomeState waitAct rfl (by decide) (by decide)
    (by decide)

/-! ## Shadow monotonicity -/

/-- `find?` on the same cell index respects a relation that preserves
cell indices: the lookups either both fail or find related trees. -/
theorem find?_forall₂ {R : Tree → Tree → Prop}
    (hR : ∀ a b, R a b → a.cell_index = b.cell_index)
    {l1 l2 : List Tree} (h : List.Forall₂ R l1 l2) (ci : Int) :
    (l1.find? (fun t => t.cell_index == ci) = none ∧
     l2.find? (fun t => t.cell_index == ci) = none) ∨
    (∃ a b, l1.find? (fun t => t.cell_index == ci) = some a ∧
            l2.find? (fun t => t.cell_index == ci) = some b ∧ R a b) := by
  induction h with
  | nil => exact Or.inl ⟨rfl, rfl⟩
  | @cons a b l1' l2' hab hrest ih =>
    by_cases hc : (a.cell_index == ci) = true
    · have hbc : (b.cell_index == ci) = true := by
        rw [← hR a b hab]
        exact hc
      exact Or.inr ⟨a, b, List.find?_cons_of_pos _ hc,
        List.find?_cons_of_pos _ hbc, hab⟩
    · have hbc : ¬((b.cell_index == ci) = true) := by
        rw [← hR a b hab]
        exact hc
      rw [List.find?_cons_of_neg _ (by simpa using hc),
        List.find?_cons_of_neg _ (by simpa using hbc)]
      exact ih

/-- `check_neighbor` is monotone in the sizes of the trees of the state:
with the same board and day, enlarging trees (cell positions unchanged)
preserves a shadowed verdict for a fixed origin size `ts`. -/
theorem check_neighbor_mono (gs1 gs2 : GameState)
    (hcells : gs1.cells = gs2.cells) (hday : gs1.day = gs2.day)
    (ht : List.Forall₂
      (fun a b => a.cell_index = b.cell_index ∧ a.size ≤ b.size)
      gs1.trees gs2.trees) :
    ∀ (count : Nat) (ci : Int) (ts : Nat),
      check_neighbor gs1 ci count ts = some true →
      check_neighbor gs2 ci count ts = some true := by
  have hfc : ∀ ci, findCell gs2 ci = findCell gs1 ci := by
    intro ci
    unfold findCell
    rw [hcells]
  have hsd : sunDirection gs2.day = sunDirection gs1.day := by rw [hday]
  intro count
  induction count using Nat.strong_induction_on with
  | _ count ih =>
    intro ci ts h
    unfold check_neighbor at h ⊢
    rw [hfc, hsd]
    cases hg : (findCell gs1 ci).neighbors.get? (sunDirection gs1.day) with
    | none =>
      rw [hg] at h
      exact absurd h (by simp)
    | some nIdx =>
      rw [hg] at h
      dsimp only at h ⊢
      by_cases h1 : nIdx = -1
      · rw [if_pos h1] at h
        exact absurd h (by simp)
      · rw [if_neg h1] at h ⊢
        rcases find?_forall₂ (fun a b hab => hab.1) ht nIdx with
          ⟨hn1, hn2⟩ | ⟨a, b, ha, hb, hab⟩
        · rw [show findTree gs1 nIdx = none from hn1] at h
          rw [show findTree gs2 nIdx = none from hn2]
          simp only [Option.getD_none] at h ⊢
          have hdf : ¬(defaultTree.cell_index ≠ -1 ∧ ts ≤ defaultTree.size) := by
            simp [defaultTree]
          rw [if_neg hdf] at h ⊢
          rcases count with _ | n
          · exact h
          · dsimp only at h ⊢
            by_cases h0 : 0 < n
            · rw [if_pos h0] at h ⊢
              exact ih n (by omega) nIdx ts h
            · rw [if_neg h0] at h
              exact absurd h (by simp)
        · rw [show findTree gs1 nIdx = some a from ha] at h
          rw [show findTree gs2 nIdx = some b from hb]
          simp only [Option.getD_some] at h ⊢
          by_cases hc1 : a.cell_index ≠ -1 ∧ ts ≤ a.size
          · have hc2 : b.cell_index ≠ -1 ∧ ts ≤ b.size :=
              ⟨hab.1 ▸ hc1.1, le_trans hc1.2 hab.2⟩
            rw [if_pos hc2]
          · rw [if_neg hc1] at h
            by_cases hc2 : b.cell_index ≠ -1 ∧ ts ≤ b.size
            · rw [if_pos hc2]
            · rw [if_neg hc2]
              rcases count with _ | n
              · exact h
              · dsimp only at h ⊢
                by_cases h0 : 0 < n
                · rw [if_pos h0] at h ⊢
                  exact ih n (by omega) nIdx ts h
                · rw [if_neg h0] at h
                  exact absurd h (by simp)

/-- Counterexample to C8 as stated: `size1State` and `size2State` are
identical except that the tree on the queried cell 0 is larger in the
second (size 2 vs size 1), with the same day and neighbor occupancy; the
smaller tree is reported shadowed but the larger one is not (its size-1
neighbor no longer meets the `size ≥ origin size` threshold). -/
theorem shadow_not_monotone_in_tree_size :
    is_shadowed size1State 0 = some true ∧
    is_shadowed size2State 0 = some false :=
  ⟨rfl, rfl⟩

/-- C8 (amended).  Shadow computation is monotone in the sizes of the
*other* trees (the potential blockers), not in the queried tree's own
size: for two states with the same board and day whose forests list the
same cell positions in the same order, where the queried cell's tree
has the same size in both and every tree's size in the second state is
at least its size in the first, a shadowed verdict in the first state is
preserved in the second. -/
theorem is_shadowed_mono_blockers (gs1 gs2 : GameState) (ci : Int)
    (hcells : gs1.cells = gs2.cells) (hday : gs1.day = gs2.day)
    (ht : List.Forall₂
      (fun a b => a.cell_index = b.cell_index ∧ a.size ≤ b.size ∧
        (a.cell_index = ci → a.size = b.size))
      gs1.trees gs2.trees)
    (h : is_shadowed gs1 ci = some true) :
    is_shadowed gs2 ci = some true := by
  unfold is_shadowed at h ⊢
  have ht' : List.Forall₂
      (fun a b => a.cell_index = b.cell_index ∧ a.size ≤ b.size)
      gs1.trees gs2.trees :=
    ht.imp (fun _ _ hab => ⟨hab.1, hab.2.1⟩)
  rcases find?_forall₂ (fun a b hab => hab.1) ht ci with
    ⟨hn1, hn2⟩ | ⟨a, b, ha, hb, hab⟩
  · rw [hn1] at h
    exact absurd h (by simp)
  · rw [ha] at h
    rw [hb]
    dsimp only at h ⊢
    have hac : a.cell_index = ci := by
      have := List.find?_some ha
      simpa using this
    have hsz : a.size = b.size := hab.2.2 hac
    rw [← hsz]
    exact check_neighbor_mono gs1 gs2 hcells hday ht' a.size ci a.size h

/-- Witness for C8 (amended): growing the blocking neighbor from size 1
(`size1State`) to size 3 (`bigBlockerState`) preserves the shadowed
verdict on cell 0. -/
theorem is_shadowed_mono_blockers_witness :
    is_shadowed bigBlockerState 0 = some true :=
  is_shadowed_mono_blockers size1State bigBlockerState 0 rfl rfl
    (List.Forall₂.cons (by refine ⟨rfl, ?_, fun _ => rfl⟩; decide)
      (List.Forall₂.cons
        (by refine ⟨rfl, ?_, fun hx => absurd hx ?_⟩ <;> decide)
        List.Forall₂.nil))
    rfl

/-! ## The final move selection -/

/-- The `max_by` fold of the move selector returns its seed or a list
element, its score dominates the seed's, and it dominates every list
element's score. -/
theorem foldl_max_by_scan (l : List Node) :
    ∀ (b : Node),
      (l.foldl max_by_scan b = b ∨ l.foldl max_by_scan b ∈ l) ∧
      b.score ≤ (l.foldl max_by_scan b).score ∧
      ∀ x ∈ l, x.score ≤ (l.foldl max_by_scan b).score := by
  induction l with
  | nil =>
    intro b
    exact ⟨Or.inl rfl, le_refl _, by simp⟩
  | cons x xs ih =>
    intro b
    rw [List.foldl_cons]
    obtain ⟨hmem, hb, hall⟩ := ih (max_by_scan b x)
    have hbx : b.score ≤ (max_by_scan b x).score := by
      unfold max_by_scan
      split
      · assumption
      · exact le_refl _
    have hxx : x.score ≤ (max_by_scan b x).score := by
      unfold max_by_scan
      split
      · exact le_refl _
      · exact le_of_not_le (by assumption)
    refine ⟨?_, le_trans hbx hb, ?_⟩
    · rcases hmem with hm | hm
      · rw [hm]
        unfold max_by_scan
        split
        · exact Or.inr (List.mem_cons_self _ _)
        · exact Or.inl rfl
      · exact Or.inr (List.mem_cons_of_mem _ hm)
    · intro y hy
      rcases List.mem_cons.mp hy with hy' | hy'
      · rw [hy']
        exact le_trans hxx hb
      · exact hall y hy'

/-- Counterexample to C3 as stated: on the concrete root children
`[manyVisitsNode, fewVisitsNode]` the final selection of `run_mcts`
returns `fewVisitsNode` (score 2, 1 visit) although
`manyVisitsNode` has the strictly higher visit count (5): the selector
compares scores, not visit counts. -/
theorem select_by_score_counterexample :
    select_best_child [manyVisitsNode, fewVisitsNode] = some fewVisitsNode ∧
    fewVisitsNode.visit_count < manyVisitsNode.visit_count := by
  constructor
  · rfl
  · decide

/-- C3 (amended).  After the iteration budget is exhausted, the final
selection of `run_mcts` returns the root child with the highest *score*
(the last among equal maxima, per Rust's `max_by`), not the highest
visit count — as the source's own comment says, "Find the child node of
the root with the highest score".  (In this implementation the root in
fact never has children, so the selection faults; this theorem
characterises the selector itself.) -/
theorem select_best_child_max_score (children : List Node) (best : Node)
    (h : select_best_child children = some best) :
    best ∈ children ∧ ∀ c ∈ children, c.score ≤ best.score := by
  match children with
  | [] => exact absurd h (by simp [select_best_child])
  | c :: rest =>
    unfold select_best_child at h
    have hb : rest.foldl max_by_scan c = best := by
      injection h
    obtain ⟨hmem, hcb, hall⟩ := foldl_max_by_scan rest c
    rw [hb] at hmem hcb hall
    constructor
    · rcases hmem with hm | hm
      · rw [hm]
        exact List.mem_cons_self _ _
      · exact List.mem_cons_of_mem _ hm
    · intro y hy
      rcases List.mem_cons.mp hy with hy' | hy'
      · rw [hy']
        exact hcb
      · exact hall y hy'

/-- Witness for C3 (amended) on the concrete children list. -/
theorem select_best_child_max_score_witness :
    fewVisitsNode ∈ [manyVisitsNode, fewVisitsNode] ∧
    ∀ c ∈ [manyVisitsNode, fewVisitsNode], c.score ≤ fewVisitsNode.score :=
  select_best_child_max_score [manyVisitsNode, fewVisitsNode] fewVisitsNode
    rfl

end SC2021
